import Mathlib

set_option maxRecDepth 4000

/-!
Verification development for CafeDB (`cafedb.py`), a file-backed JSON document
store.  The Python source is shallowly embedded: JSON values become the
inductive `Value` (floats are not used by any claim and are not modelled),
records become ordered association lists mirroring Python's insertion-ordered
dicts, and every fallible operation returns `Except Err`.  The Python regular
expression engine (`re`) is an external library and is modelled as an explicit
oracle parameter.
-/

/-- A JSON value as stored by CafeDB.  Python `bool` is kept distinct from
`int` (as in Python), but the comparison/equality functions below implement
Python's numeric coercion between the two. -/
inductive Value where
  | null
  | bool (b : Bool)
  | int (n : Int)
  | str (s : String)
  | arr (xs : List Value)
  | obj (kvs : List (String × Value))

/-- A record (Python dict), insertion ordered. -/
abbrev Record := List (String × Value)

mutual

/-- Structural (Lean-level) equality test for `Value`. -/
def beqV : Value → Value → Bool
  | .null, .null => true
  | .bool a, .bool b => a == b
  | .int a, .int b => a == b
  | .str a, .str b => a == b
  | .arr xs, .arr ys => beqVL xs ys
  | .obj xs, .obj ys => beqVKV xs ys
  | _, _ => false

def beqVL : List Value → List Value → Bool
  | [], [] => true
  | x :: xs, y :: ys => beqV x y && beqVL xs ys
  | _, _ => false

def beqVKV : List (String × Value) → List (String × Value) → Bool
  | [], [] => true
  | (k, v) :: xs, (k2, w) :: ys => k == k2 && beqV v w && beqVKV xs ys
  | _, _ => false

end

mutual

theorem beqV_iff : ∀ a b : Value, beqV a b = true ↔ a = b
  | .null, b => by cases b <;> simp [beqV]
  | .bool a, b => by cases b <;> simp [beqV]
  | .int a, b => by cases b <;> simp [beqV]
  | .str a, b => by cases b <;> simp [beqV]
  | .arr xs, b => by
      cases b <;> simp [beqV]
      exact beqVL_iff xs _
  | .obj xs, b => by
      cases b <;> simp [beqV]
      exact beqVKV_iff xs _

theorem beqVL_iff : ∀ xs ys : List Value, beqVL xs ys = true ↔ xs = ys
  | [], [] => by simp [beqVL]
  | [], _ :: _ => by simp [beqVL]
  | _ :: _, [] => by simp [beqVL]
  | x :: xs, y :: ys => by
      simp [beqVL, Bool.and_eq_true, beqV_iff x y, beqVL_iff xs ys]

theorem beqVKV_iff : ∀ xs ys : List (String × Value), beqVKV xs ys = true ↔ xs = ys
  | [], [] => by simp [beqVKV]
  | [], _ :: _ => by simp [beqVKV]
  | _ :: _, [] => by simp [beqVKV]
  | (k, v) :: xs, (k2, w) :: ys => by
      simp only [beqVKV, Bool.and_eq_true, beqV_iff v w, beqVKV_iff xs ys, beq_iff_eq,
        List.cons.injEq, Prod.mk.injEq, and_assoc]

end

instance : DecidableEq Value := fun a b => decidable_of_iff _ (beqV_iff a b)

instance : BEq Value := ⟨beqV⟩

/-- First-occurrence lookup in an association list: Python `d[k]` /
`d.get(k)` (Python dicts have unique keys; all lists built by the model
operations keep keys unique). -/
def alookup {α : Type} (d : List (String × α)) (k : String) : Option α :=
  match d with
  | [] => none
  | (k2, v) :: rest => if k2 = k then some v else alookup rest k

/-- Python `k in d`. -/
def hasKey {α : Type} (d : List (String × α)) (k : String) : Bool :=
  (alookup d k).isSome

/-- Python `d[k] = v`: replace the value in place when the key is present
(keeping its position), otherwise append at the end — exactly the
insertion-order semantics of assignment into a Python dict. -/
def setKey {α : Type} (d : List (String × α)) (k : String) (v : α) : List (String × α) :=
  match d with
  | [] => [(k, v)]
  | (k2, w) :: rest => if k2 = k then (k2, v) :: rest else (k2, w) :: setKey rest k v

/-- Python `del d[k]` (first occurrence). -/
def delKey {α : Type} (d : List (String × α)) (k : String) : List (String × α) :=
  match d with
  | [] => []
  | (k2, w) :: rest => if k2 = k then rest else (k2, w) :: delKey rest k

/-- Python `{**a, **b}`: merge `b` into `a`, overriding in place. -/
def mergeDict {α : Type} (a b : List (String × α)) : List (String × α) :=
  b.foldl (fun acc kv => setKey acc kv.1 kv.2) a

mutual

/-- Python `==` on JSON values: `bool` compares equal to the
corresponding `int`; dict equality ignores key order. -/
def pyEq : Value → Value → Bool
  | .null, .null => true
  | .bool a, .bool b => a == b
  | .bool a, .int n => (if a then (1 : Int) else 0) == n
  | .int n, .bool a => n == (if a then (1 : Int) else 0)
  | .int a, .int b => a == b
  | .str a, .str b => a == b
  | .arr xs, .arr ys => pyEqL xs ys
  | .obj xs, .obj ys => pyEqKVs xs ys && pyEqKVs ys xs
  | _, _ => false
termination_by a b => sizeOf a + sizeOf b

def pyEqL : List Value → List Value → Bool
  | [], [] => true
  | x :: xs, y :: ys => pyEq x y && pyEqL xs ys
  | _, _ => false
termination_by xs ys => sizeOf xs + sizeOf ys

/-- Every binding of the first dict has a key in the second whose (first)
value is Python-equal. -/
def pyEqKVs : List (String × Value) → List (String × Value) → Bool
  | [], _ => true
  | (k, v) :: rest, b => lookupEq v k b && pyEqKVs rest b
termination_by a b => sizeOf a + sizeOf b

def lookupEq : Value → String → List (String × Value) → Bool
  | _, _, [] => false
  | v, k, (k2, w) :: rest => if k2 = k then pyEq v w else lookupEq v k rest
termination_by v _ l => sizeOf v + sizeOf l

end

/-- Python `str.__lt__` compares by code point; model character comparison. -/
def charCmp (a b : Char) : Ordering :=
  if a.toNat < b.toNat then .lt else if b.toNat < a.toNat then .gt else .eq

def charListCmp : List Char → List Char → Ordering
  | [], [] => .eq
  | [], _ :: _ => .lt
  | _ :: _, [] => .gt
  | a :: as2, b :: bs =>
    match charCmp a b with
    | .eq => charListCmp as2 bs
    | o => o

/-- Python string comparison (lexicographic by code point). -/
def strCmp (a b : String) : Ordering := charListCmp a.data b.data

def intCmp (a b : Int) : Ordering :=
  if a < b then .lt else if b < a then .gt else .eq

/-- Python `bool` acts as an `int` in comparisons. -/
def boolToInt (b : Bool) : Int := if b then 1 else 0

mutual

/-- Python ordered comparison (`<`, `<=`, `>`, `>=`) on JSON values.
`none` models a `TypeError` (incomparable types): numbers (and bools)
compare with numbers, strings with strings, lists elementwise; `None` and
dicts support no ordered comparison. -/
def pyCmp : Value → Value → Option Ordering
  | .int a, .int b => some (intCmp a b)
  | .int a, .bool b => some (intCmp a (boolToInt b))
  | .bool a, .int b => some (intCmp (boolToInt a) b)
  | .bool a, .bool b => some (intCmp (boolToInt a) (boolToInt b))
  | .str a, .str b => some (strCmp a b)
  | .arr xs, .arr ys => pyCmpL xs ys
  | _, _ => none

/-- Python list comparison: scan for the first pair that is not `==`-equal,
then compare that pair (which may itself raise `TypeError` = `none`);
otherwise compare lengths. -/
def pyCmpL : List Value → List Value → Option Ordering
  | [], [] => some .eq
  | [], _ :: _ => some .lt
  | _ :: _, [] => some .gt
  | x :: xs, y :: ys => if pyEq x y then pyCmpL xs ys else pyCmp x y

end

/-- Python truthiness of a JSON value. -/
def pyTruthy : Value → Bool
  | .null => false
  | .bool b => b
  | .int n => n != 0
  | .str s => s ≠ ""
  | .arr xs => !xs.isEmpty
  | .obj kvs => !kvs.isEmpty

mutual

/-- Python `repr()` of a JSON value (strings are quoted; escape sequences
inside strings are not modelled — no claim evaluates `repr` on strings
containing quotes or control characters). -/
def pyRepr : Value → String
  | .null => "None"
  | .bool b => if b then "True" else "False"
  | .int n => toString n
  | .str s => "\x27" ++ s ++ "\x27"
  | .arr xs => "[" ++ pyReprL xs ++ "]"
  | .obj kvs => "\x7b" ++ pyReprKVs kvs ++ "\x7d"

def pyReprL : List Value → String
  | [] => ""
  | [x] => pyRepr x
  | x :: xs => pyRepr x ++ ", " ++ pyReprL xs

def pyReprKVs : List (String × Value) → String
  | [] => ""
  | [(k, v)] => "\x27" ++ k ++ "\x27: " ++ pyRepr v
  | (k, v) :: kvs => "\x27" ++ k ++ "\x27: " ++ pyRepr v ++ ", " ++ pyReprKVs kvs

end

/-- Python `str()` of a JSON value. -/
def pyStr : Value → String
  | .str s => s
  | v => pyRepr v

/-- `a.startswith(b)` (kernel-computable model of the string primitive). -/
def strStartsWith (a b : String) : Bool := b.data.isPrefixOf a.data

/-- `a.endswith(b)`. -/
def strEndsWith (a b : String) : Bool := b.data.isSuffixOf a.data

/-- `s.lower()` (ASCII case folding, as every example requires). -/
def strToLower (s : String) : String := ⟨s.data.map Char.toLower⟩

/-- `c in s` for a single character. -/
def strContainsChar (s : String) (c : Char) : Bool := s.data.contains c

/-- `s.replace(c, r)` for a single-character target (the only form the
source uses). -/
def replaceChar (c : Char) (r : List Char) : List Char → List Char
  | [] => []
  | x :: xs => if x = c then r ++ replaceChar c r xs else x :: replaceChar c r xs

/-- `sep.join(parts)`. -/
def joinSep (sep : String) : List String → String
  | [] => ""
  | [x] => x
  | x :: xs => x ++ sep ++ joinSep sep xs

/-- Errors.  `tableNotFound`/`tableExists`/`queryError`/`cafeError` mirror the
`CafeDBError` hierarchy; `pyError` models a Python-level exception that the
source does not catch (`TypeError`, `KeyError`, `ValueError`,
`AttributeError`, `re.error`). -/
inductive Err where
  | tableNotFound (msg : String)
  | tableExists (msg : String)
  | queryError (msg : String)
  | cafeError (msg : String)
  | pyError (kind : String)
  deriving Repr, DecidableEq

/-- The Python `re` module is an external library; its two entry points used
by the source are modelled as an oracle.  `search p s` models
`bool(re.search(p, s, re.IGNORECASE))`, `matchA p s` models
`bool(re.match(p, s, re.IGNORECASE))`; an `error` result models `re.error`
(an invalid pattern). -/
structure ReOracle where
  search : String → String → Except String Bool
  matchA : String → String → Except String Bool

/-- `needle` occurs as a contiguous sublist of `hay` (Python `in` on strings). -/
def listIsSub (needle hay : List Char) : Bool :=
  match hay with
  | [] => needle.isEmpty
  | _ :: rest => needle.isPrefixOf hay || listIsSub needle rest

def strIn (needle hay : String) : Bool := listIsSub needle.data hay.data

/-- `CafeDB._match_wildcard`: translate the glob (`*`/`?`) into an anchored
regular expression and match case-insensitively. -/
def wildcardRegex (pattern : String) : String :=
  "^" ++ String.mk (replaceChar '?' ".".data (replaceChar '*' ".*".data pattern.data)) ++ "$"

def matchWildcard (o : ReOracle) (value : Value) (pattern : String) : Except Err Bool :=
  match o.matchA (wildcardRegex pattern) (pyStr value) with
  | .ok b => .ok b
  | .error e => .error (.pyError ("re.error: " ++ e))

/-- Python `value in op_value` as used by `$in`/`$nin`: membership in a list,
substring test on a string, key-membership in a dict; otherwise `TypeError`. -/
def pyIn (value opv : Value) : Except Err Bool :=
  match opv with
  | .arr xs => .ok (xs.any (fun x => pyEq x value))
  | .str s =>
    match value with
    | .str v => .ok (strIn v s)
    | _ => .error (.pyError "TypeError")
  | .obj kvs =>
    match value with
    | .str k => .ok (hasKey kvs k)
    | .arr _ => .error (.pyError "TypeError")
    | .obj _ => .error (.pyError "TypeError")
    | _ => .ok false
  | _ => .error (.pyError "TypeError")

/-- The unknown-operator message of `_match_condition`. -/
def unknownOpMsg (op : String) : String :=
  "Unknown operator: " ++ op ++
    ". Valid operators: $eq, $ne, $gt, $gte, $lt, $lte, $in, $nin, $like, $regex, $contains, $startswith, $endswith, $between, $exists"

/-- One step of the operator loop of `CafeDB._match_condition`: evaluate a
single operator against the field value.  `.ok true` means the operator
passed (the loop continues), `.ok false` means the row fails to match
(`return False` in the source), `.error` models a raised exception.  The
if-chain mirrors the source's dispatch order. -/
def matchOp1 (o : ReOracle) (value : Value) (op : String) (opv : Value) : Except Err Bool :=
  if op = "$eq" then .ok (pyEq value opv)
  else if op = "$ne" then .ok (!pyEq value opv)
  else if op = "$gt" then
    .ok (match pyCmp value opv with
      | some .gt => true
      | _ => false)
  else if op = "$gte" then
    .ok (match pyCmp value opv with
      | some .gt => true
      | some .eq => true
      | _ => false)
  else if op = "$lt" then
    .ok (match pyCmp value opv with
      | some .lt => true
      | _ => false)
  else if op = "$lte" then
    .ok (match pyCmp value opv with
      | some .lt => true
      | some .eq => true
      | _ => false)
  else if op = "$in" then pyIn value opv
  else if op = "$nin" then
    match pyIn value opv with
    | .error e => .error e
    | .ok b => .ok (!b)
  else if op = "$like" then
    match opv with
    | .str p => matchWildcard o value p
    | _ => .error (.pyError "AttributeError")
  else if op = "$regex" then
    match opv with
    | .str p =>
      match o.search p (pyStr value) with
      | .error e => .error (.queryError ("Invalid regex pattern \x27" ++ p ++ "\x27: " ++ e))
      | .ok b => .ok b
    | _ => .error (.pyError "TypeError")
  else if op = "$contains" then
    match value with
    | .str v =>
      match opv with
      | .str p => .ok (strIn (strToLower p) (strToLower v))
      | _ => .error (.pyError "AttributeError")
    | _ => .ok false
  else if op = "$startswith" then
    match value with
    | .str v =>
      match opv with
      | .str p => .ok (strStartsWith (strToLower v) (strToLower p))
      | _ => .error (.pyError "AttributeError")
    | _ => .ok false
  else if op = "$endswith" then
    match value with
    | .str v =>
      match opv with
      | .str p => .ok (strEndsWith (strToLower v) (strToLower p))
      | _ => .error (.pyError "AttributeError")
    | _ => .ok false
  else if op = "$between" then
    match opv with
    | .arr [mn, mx] =>
      .ok (match pyCmp mn value with
        | none => false
        | some .gt => false
        | some _ =>
          match pyCmp value mx with
          | none => false
          | some .gt => false
          | some _ => true)
    | _ => .error (.queryError "$between requires array of exactly 2 values")
  else if op = "$exists" then .ok (pyTruthy opv)
  else .error (.queryError (unknownOpMsg op))

/-- The operator loop of `CafeDB._match_condition`: operators are evaluated
in insertion order; the first failing operator returns `False` for the row,
a raised exception aborts, and `$exists` inside this loop returns the
truthiness of its operand immediately (only reachable when
`_match_condition` is called directly, since `_build_condition_function`
short-circuits `$exists` earlier). -/
def matchOps (o : ReOracle) (value : Value) : List (String × Value) → Except Err Bool
  | [] => .ok true
  | (op, opv) :: rest =>
    if op = "$exists" then .ok (pyTruthy opv)
    else
      match matchOp1 o value op opv with
      | .error e => .error e
      | .ok false => .ok false
      | .ok true => matchOps o value rest

/-- `CafeDB._match_condition`: an operator mapping is evaluated by
`matchOps`; a string containing a glob marker is matched as a wildcard;
anything else is a direct `==`. -/
def matchCondition (o : ReOracle) (value : Value) (cond : Value) : Except Err Bool :=
  match cond with
  | .obj kvs => matchOps o value kvs
  | .str s =>
    if strContainsChar s '*' || strContainsChar s '?' then matchWildcard o value s
    else .ok (pyEq value (.str s))
  | c => .ok (pyEq value c)

/-- Does the condition mapping contain an `$exists` key
(`isinstance(condition, dict) and '$exists' in condition`)? -/
def condHasExists : Value → Bool
  | .obj kvs => hasKey kvs "$exists"
  | _ => false

/-- `condition['$exists']`. -/
def existsOpVal : Value → Value
  | .obj kvs => (alookup kvs "$exists").getD .null
  | _ => .null

/-- The per-row predicate built by `CafeDB._build_condition_function`,
looping over the filter's fields in insertion order. -/
def condLoop (o : ReOracle) (row : Record) : List (String × Value) → Except Err Bool
  | [] => .ok true
  | (field, cond) :: rest =>
    if condHasExists cond then
      if !pyEq (existsOpVal cond) (.bool (hasKey row field)) then .ok false
      else condLoop o row rest
    else
      match alookup row field with
      | none => .ok false
      | some v =>
        match matchCondition o v cond with
        | .error e => .error e
        | .ok b => if !b then .ok false else condLoop o row rest

/-- `CafeDB._build_condition_function filters` applied to a row. -/
def conditionFunc (o : ReOracle) (filters : List (String × Value)) (row : Record) :
    Except Err Bool :=
  condLoop o row filters

/-- Stable insertion into a sorted list: `x` is placed before the first
element `y` with `x < y`, i.e. after every earlier element that is not
strictly greater — the placement a stable sort gives the next element. -/
def insStable {α : Type} (lt : α → α → Bool) (x : α) : List α → List α
  | [] => [x]
  | y :: ys => if lt x y then x :: y :: ys else y :: insStable lt x ys

/-- Python `sorted` is a stable sort driven solely by `<` on the keys; any
stable sort computes the same list for the comparators arising here, and it
is modelled as stable insertion, processing the input left to right. -/
def pySortL {α : Type} (lt : α → α → Bool) (l : List α) : List α :=
  l.foldl (fun acc x => insStable lt x acc) []

/-- The sort key of `sorted(rows, key=lambda x: x.get(order_by, ''))`:
a row missing the sort field is keyed by the empty string. -/
def sortKey (ob : String) (r : Record) : Value := (alookup r ob).getD (.str "")

def isLtO : Option Ordering → Bool
  | some .lt => true
  | _ => false

def isGtO : Option Ordering → Bool
  | some .gt => true
  | _ => false

/-- Strict key comparison used by the primary sort (`reverse` flips it). -/
def rowLt (ob : String) (rev : Bool) (a b : Record) : Bool :=
  if rev then isGtO (pyCmp (sortKey ob a) (sortKey ob b))
  else isLtO (pyCmp (sortKey ob a) (sortKey ob b))

/-- Strict key comparison of the fallback sort, on `str()` of the keys. -/
def rowLtStr (ob : String) (rev : Bool) (a b : Record) : Bool :=
  if rev then isGtO (some (strCmp (pyStr (sortKey ob a)) (pyStr (sortKey ob b))))
  else isLtO (some (strCmp (pyStr (sortKey ob a)) (pyStr (sortKey ob b))))

/-- All sort keys of the rows are mutually ordered-comparable.  The primary
`sorted` call raises `TypeError` (switching `select` to the fallback sort)
exactly when it compares two incomparable keys; a sort must order every
element against its neighbours, so this is modelled as the pairwise test. -/
def pairwiseComparable (ob : String) (rows : List Record) : Bool :=
  rows.all (fun a => rows.all (fun b => (pyCmp (sortKey ob a) (sortKey ob b)).isSome))

/-- The sorting stage of `select`.  `if order_by:` — `none` and the empty
string (falsy in Python) both skip sorting.  The `try`/`except TypeError`
around the primary sort selects the string-keyed fallback. -/
def sortStage (ob : Option String) (rev : Bool) (rows : List Record) : List Record :=
  match ob with
  | none => rows
  | some o =>
    if o = "" then rows
    else if pairwiseComparable o rows then pySortL (rowLt o rev) rows
    else pySortL (rowLtStr o rev) rows

/-- The `_meta` entry: collection list, creation stamp, schema version and
the optional last-modified stamp. -/
structure Meta where
  tables : List String
  created : String
  version : String
  last_modified : Option String
  deriving Repr, DecidableEq

/-- One entry of the top-level store mapping `self._data`: the metadata
object under the key `"_meta"`, or a record sequence under a table name. -/
inductive Entry where
  | metaE (m : Meta)
  | tableE (rows : List Record)
  deriving DecidableEq

/-- The top-level store mapping `self._data`, insertion ordered. -/
abbrev DBData := List (String × Entry)

/-- In-memory store plus the modelled filesystem at the database path.
Serialization is JSON via the standard library; on JSON-representable data
(all of `DBData`) dump-then-load is the identity, so a file holds a
`DBData` directly.  `file`/`backupFile` are the contents at the database
path and at the `.backup` path. -/
structure Sys where
  data : DBData
  file : Option DBData
  backupFile : Option DBData
  backupEnabled : Bool
  deriving DecidableEq

/-- `CafeDB._write_db` at time `t`: if backup is enabled and the file
exists, rename it to the backup path; serialize the store to a temp file
and atomically rename it over the database path (net effect:
`file := some data`); only after the swap refresh the in-memory
`last_modified` stamp — the serialized copy keeps the previous stamp.
If the store has no proper `_meta` entry that final update raises
(`KeyError`/`TypeError`) after the file was already replaced. -/
def writeDb (s : Sys) (t : String) : Sys × Except Err Unit :=
  let s1 :=
    if s.backupEnabled && s.file.isSome then
      { s with backupFile := s.file, file := none }
    else s
  let s2 := { s1 with file := some s1.data }
  match (alookup s2.data "_meta" : Option Entry) with
  | some (.metaE m) =>
    ({ s2 with data := setKey s2.data "_meta" (.metaE { m with last_modified := some t }) },
      .ok ())
  | some (.tableE _) => (s2, .error (.pyError "TypeError"))
  | none => (s2, .error (.pyError "KeyError"))

def freshMeta (t : String) : Meta :=
  { tables := [], created := t, version := "1.0.0", last_modified := none }

/-- `CafeDB.__init__` at time `t`: deserialize the file when the path
exists, otherwise initialize an empty store and perform the initial durable
write; afterwards insert a fresh `_meta` entry if none was present. -/
def openDB (file : Option DBData) (backupFile : Option DBData) (backupEnabled : Bool)
    (t : String) : Sys × Except Err Unit :=
  match file with
  | some d =>
    let s : Sys :=
      { data := d, file := some d, backupFile := backupFile, backupEnabled := backupEnabled }
    if hasKey d "_meta" then (s, .ok ())
    else ({ s with data := d ++ [("_meta", .metaE (freshMeta t))] }, .ok ())
  | none =>
    writeDb
      { data := [("_meta", .metaE (freshMeta t))], file := none, backupFile := backupFile,
        backupEnabled := backupEnabled } t

/-- `CafeDB.list_tables`: `self._data["_meta"]["tables"].copy()`. -/
def list_tables (s : Sys) : Except Err (List String) :=
  match alookup s.data "_meta" with
  | some (.metaE m) => .ok m.tables
  | some (.tableE _) => .error (.pyError "TypeError")
  | none => .error (.pyError "KeyError")

/-- `CafeDB.exists_table`: membership in the raw top-level mapping. -/
def exists_table (s : Sys) (name : String) : Bool := hasKey s.data name

/-- `', '.join(self.list_tables()) or 'none'` — an empty join is falsy. -/
def availableMsg (s : Sys) : Except Err String :=
  match list_tables s with
  | .error e => .error e
  | .ok ts =>
    let j := joinSep ", " ts
    .ok (if j = "" then "none" else j)

/-- `CafeDB.create_table`. -/
def create_table (s : Sys) (name : String) (t : String) : Sys × Except Err Unit :=
  if hasKey s.data name then
    (s, .error (.tableExists
      ("Table \x27" ++ name ++ "\x27 already exists. Use drop_table() first or choose a different name.")))
  else if strStartsWith name "_" then
    (s, .error (.queryError "Table names cannot start with underscore (reserved for internal use)"))
  else
    let d1 := setKey s.data name (.tableE [])
    match alookup d1 "_meta" with
    | some (.metaE m) =>
      writeDb
        { s with data := (setKey d1 "_meta"
            (.metaE { m with tables := pySortL (fun a b => strCmp a b == .lt) (m.tables ++ [name]) })) } t
    | some (.tableE _) => ({ s with data := d1 }, .error (.pyError "TypeError"))
    | none => ({ s with data := d1 }, .error (.pyError "KeyError"))

/-- `CafeDB.drop_table`.  Note the existence check is membership in the raw
mapping, so the reserved key `"_meta"` passes it; the entry is then deleted
and the subsequent metadata access raises with the deletion already done. -/
def drop_table (s : Sys) (name : String) (t : String) : Sys × Except Err Unit :=
  if !hasKey s.data name then
    match availableMsg s with
    | .error e => (s, .error e)
    | .ok av => (s, .error (.tableNotFound
        ("Table \x27" ++ name ++ "\x27 does not exist. Available tables: " ++ av)))
  else
    let d1 := delKey s.data name
    match alookup d1 "_meta" with
    | some (.metaE m) =>
      if name ∈ m.tables then
        writeDb { s with data := setKey d1 "_meta" (.metaE { m with tables := m.tables.erase name }) } t
      else ({ s with data := d1 }, .error (.pyError "ValueError"))
    | some (.tableE _) => ({ s with data := d1 }, .error (.pyError "TypeError"))
    | none => ({ s with data := d1 }, .error (.pyError "KeyError"))

/-- `CafeDB.insert` at time `t`.  The `isinstance(row, dict)` check is
enforced by the Lean type of `row`. -/
def insert (s : Sys) (name : String) (row : Record) (t : String) : Sys × Except Err Unit :=
  if !hasKey s.data name then
    (s, .error (.tableNotFound
      ("Table \x27" ++ name ++ "\x27 does not exist. Use create_table(\x27" ++ name ++ "\x27) first.")))
  else
    match alookup s.data name with
    | some (.tableE rows) =>
      writeDb { s with data := (setKey s.data name
        (.tableE (rows ++ [setKey row "_inserted_at" (.str t)]))) } t
    | _ => (s, .error (.pyError "AttributeError"))

/-- `CafeDB.insert_many` at time `t` (one shared timestamp, one write). -/
def insert_many (s : Sys) (name : String) (rows : List Record) (t : String) :
    Sys × Except Err Nat :=
  if !hasKey s.data name then
    (s, .error (.tableNotFound
      ("Table \x27" ++ name ++ "\x27 does not exist. Use create_table(\x27" ++ name ++ "\x27) first.")))
  else
    match alookup s.data name with
    | some (.tableE trows) =>
      let (s2, w) := writeDb { s with data := (setKey s.data name
        (.tableE (trows ++ rows.map (fun r => setKey r "_inserted_at" (.str t))))) } t
      match w with
      | .ok _ => (s2, .ok rows.length)
      | .error e => (s2, .error e)
    | _ => (s, .error (.pyError "AttributeError"))

/-- The `filters` argument of `select`/`update`/`delete`/`count`: a filter
mapping, a predicate function, or a value of an invalid type. -/
inductive FilterArg where
  | fdict (filters : List (String × Value))
  | ffun (p : Record → Bool)
  | finvalid

/-- The `updater` argument of `update`. -/
inductive UpdaterArg where
  | udict (u : List (String × Value))
  | ufun (f : Record → Record)
  | uinvalid

/-- Left-to-right monadic filter: a Python list comprehension whose
predicate may raise. -/
def filterE (p : Record → Except Err Bool) : List Record → Except Err (List Record)
  | [] => .ok []
  | r :: rest =>
    match p r with
    | .error e => .error e
    | .ok b =>
      match filterE p rest with
      | .error e => .error e
      | .ok rs => .ok (if b then r :: rs else rs)

/-- The filtering stage of `select`. -/
def applyFilters (o : ReOracle) (filters : Option FilterArg) (rows : List Record) :
    Except Err (List Record) :=
  match filters with
  | none => .ok rows
  | some (.ffun p) => .ok (rows.filter p)
  | some (.fdict fl) => filterE (conditionFunc o fl) rows
  | some .finvalid => .error (.queryError "Filters must be dict, callable, or None")

/-- `rows[offset:]`, guarded by `if offset > 0`. -/
def pySliceFrom (off : Int) (l : List Record) : List Record :=
  if off > 0 then l.drop off.toNat else l

/-- `rows[:limit]` with Python slice semantics for negative limits. -/
def pySliceTake (m : Int) (l : List Record) : List Record :=
  if 0 ≤ m then l.take m.toNat else l.take (l.length - (-m).toNat)

def pySliceTakeOpt (lim : Option Int) (l : List Record) : List Record :=
  match lim with
  | none => l
  | some m => pySliceTake m l

/-- The projection `{k: row.get(k) for k in fields}`: a fresh dict with
exactly the listed keys, an absent field contributing `None`. -/
def projRow (fields : List String) (r : Record) : Record :=
  fields.foldl (fun acc k => setKey acc k ((alookup r k).getD .null)) []

/-- `CafeDB.select`: filter → sort → offset/limit → projection.  The store
component of the result is returned unchanged — `select` performs no write.
Without a projection the Python code returns `row.copy()` for each row
(a shallow dict copy — the identity at the level of pure values; aliasing
is treated in the heap model below).  A non-list `fields` argument is
unrepresentable in the Lean type; reaching the metadata entry through the
table path is a dynamic-typing corner no claim depends on, reported as
`pyError "meta-entry"`. -/
def select (o : ReOracle) (s : Sys) (name : String) (filters : Option FilterArg)
    (fields : Option (List String)) (lim : Option Int) (off : Int)
    (ob : Option String) (rev : Bool) : Sys × Except Err (List Record) :=
  if !hasKey s.data name then
    match availableMsg s with
    | .error e => (s, .error e)
    | .ok av => (s, .error (.tableNotFound
        ("Table \x27" ++ name ++ "\x27 does not exist. Available tables: " ++ av)))
  else
    match alookup s.data name with
    | some (.tableE rows) =>
      match applyFilters o filters rows with
      | .error e => (s, .error e)
      | .ok frows =>
        let paged := pySliceTakeOpt lim (pySliceFrom off (sortStage ob rev frows))
        match fields with
        | some fl => (s, .ok (paged.map (projRow fl)))
        | none => (s, .ok (paged.map (fun r => r)))
    | _ => (s, .error (.pyError "meta-entry"))

/-- Build the per-row condition from `update`/`delete`'s filter argument. -/
def buildCond (o : ReOracle) : FilterArg → Except Err (Record → Except Err Bool)
  | .ffun p => .ok (fun r => .ok (p r))
  | .fdict fl => .ok (conditionFunc o fl)
  | .finvalid => .error (.queryError "Filters must be dict or callable")

/-- Build the row transformer from `update`'s updater argument:
a dict updater merges and stamps `_updated_at`. -/
def buildUpdater (t : String) : UpdaterArg → Except Err (Record → Record)
  | .ufun f => .ok f
  | .udict u =>
    .ok (fun row => setKey (mergeDict row u) "_updated_at" (.str t))
  | .uinvalid => .error (.queryError "Updater must be dict or callable")

/-- The in-place update loop of `CafeDB.update`: rows are transformed left
to right; a raising condition aborts the loop, keeping the updates already
applied to earlier rows (in-place mutation). -/
def updateLoop (cond : Record → Except Err Bool) (f : Record → Record) :
    List Record → List Record × Nat × Option Err
  | [] => ([], 0, none)
  | r :: rest =>
    match cond r with
    | .error e => (r :: rest, 0, some e)
    | .ok b =>
      let (rest2, n, e2) := updateLoop cond f rest
      if b then (f r :: rest2, n + 1, e2) else (r :: rest2, n, e2)

/-- `CafeDB.update` at time `t`.  The durable write happens only when at
least one row was updated. -/
def update (o : ReOracle) (s : Sys) (name : String) (filters : FilterArg)
    (updater : UpdaterArg) (t : String) : Sys × Except Err Nat :=
  if !hasKey s.data name then
    (s, .error (.tableNotFound ("Table \x27" ++ name ++ "\x27 does not exist")))
  else
    match buildCond o filters with
    | .error e => (s, .error e)
    | .ok cond =>
      match buildUpdater t updater with
      | .error e => (s, .error e)
      | .ok f =>
        match alookup s.data name with
        | some (.tableE rows) =>
          let (rows2, n, e2) := updateLoop cond f rows
          let s2 := { s with data := setKey s.data name (.tableE rows2) }
          match e2 with
          | some e => (s2, .error e)
          | none =>
            if n > 0 then
              let (s3, w) := writeDb s2 t
              match w with
              | .ok _ => (s3, .ok n)
              | .error e => (s3, .error e)
            else (s2, .ok n)
        | _ => (s, .error (.pyError "meta-entry"))

/-- `CafeDB.delete` at time `t`: survivors are computed by one list
comprehension (a raising condition mutates nothing), then assigned. -/
def delete (o : ReOracle) (s : Sys) (name : String) (filters : FilterArg) (t : String) :
    Sys × Except Err Nat :=
  if !hasKey s.data name then
    (s, .error (.tableNotFound ("Table \x27" ++ name ++ "\x27 does not exist")))
  else
    match buildCond o filters with
    | .error e => (s, .error e)
    | .ok cond =>
      match alookup s.data name with
      | some (.tableE rows) =>
        match filterE (fun r =>
            match cond r with
            | .ok b => .ok (!b)
            | .error e => .error e) rows with
        | .error e => (s, .error e)
        | .ok kept =>
          let n := rows.length - kept.length
          let s2 := { s with data := setKey s.data name (.tableE kept) }
          if n > 0 then
            let (s3, w) := writeDb s2 t
            match w with
            | .ok _ => (s3, .ok n)
            | .error e => (s3, .error e)
          else (s2, .ok n)
      | _ => (s, .error (.pyError "meta-entry"))

/-- `len(d)` of a top-level entry (a table's row count; for the metadata
dict, its number of keys — only reachable by `clear_table("_meta")`). -/
def entryLen : Entry → Nat
  | .tableE rows => rows.length
  | .metaE m => 3 + (if m.last_modified.isSome then 1 else 0)

/-- `CafeDB.clear_table` at time `t`: `self._data[name] = []` (for the
reserved key this replaces the metadata object by a list, after which the
durable write raises having already replaced the file). -/
def clear_table (s : Sys) (name : String) (t : String) : Sys × Except Err Nat :=
  if !hasKey s.data name then
    (s, .error (.tableNotFound ("Table \x27" ++ name ++ "\x27 does not exist")))
  else
    let n := entryLen ((alookup s.data name).getD (.tableE []))
    let (s3, w) := writeDb { s with data := setKey s.data name (.tableE []) } t
    match w with
    | .ok _ => (s3, .ok n)
    | .error e => (s3, .error e)

/-- Python `type(v).__name__`. -/
def typeName : Value → String
  | .null => "NoneType"
  | .bool _ => "bool"
  | .int _ => "int"
  | .str _ => "str"
  | .arr _ => "list"
  | .obj _ => "dict"

/-- Per-field statistics of `CafeDB.stats`.  The floating-point fields
(`present_percentage`, `min`/`max`/`avg`) and the serialized-size estimate
(`size_bytes`/`size_kb`) are not modelled (floats / serializer); no claim
concerns them. -/
structure FieldStats where
  present_count : Nat
  unique_count : Nat
  null_count : Nat
  data_types : List String
  deriving Repr, DecidableEq

structure TableStats where
  table : String
  total_rows : Nat
  fields : List (String × FieldStats)
  deriving Repr, DecidableEq

/-- The union of the rows' field names (Python builds a `set`, whose
iteration order is unspecified; modelled as first-appearance order). -/
def allFieldsOf (rows : List Record) : List String :=
  (rows.foldl (fun acc r => acc ++ r.map Prod.fst) []).dedup

def fieldStatsFor (rows : List Record) (field : String) : FieldStats :=
  let values := (rows.filter (fun r => hasKey r field)).map
    (fun r => (alookup r field).getD .null)
  let non_null := values.filter (fun v => v ≠ .null)
  { present_count := values.length
    unique_count := (non_null.map pyStr).dedup.length
    null_count := values.length - non_null.length
    data_types := (non_null.map typeName).dedup }

/-- `CafeDB.stats`. -/
def stats (s : Sys) (name : String) : Sys × Except Err TableStats :=
  if !hasKey s.data name then
    (s, .error (.tableNotFound ("Table \x27" ++ name ++ "\x27 does not exist")))
  else
    match alookup s.data name with
    | some (.tableE rows) =>
      if rows.length = 0 then (s, .ok { table := name, total_rows := 0, fields := [] })
      else
        (s, .ok { table := name, total_rows := rows.length,
                  fields := (allFieldsOf rows).map (fun f => (f, fieldStatsFor rows f)) })
    | _ => (s, .error (.pyError "meta-entry"))

/-- `CafeDB.transaction` at commit time `t`, run on a body that mutates the
store and either succeeds or raises.  On entry the store is deep-copied via
a JSON round trip (the identity on `DBData`); on success one durable write
commits; on any failure — including a failing commit write — the live store
is replaced by the snapshot and the failure is re-raised.  Files already
written by operations inside the body keep their on-disk state. -/
def transaction (s : Sys) (t : String) (body : Sys → Sys × Except Err Unit) :
    Sys × Except Err Unit :=
  let snap := s.data
  let (s1, r) := body s
  match r with
  | .ok _ =>
    let (s2, w) := writeDb s1 t
    match w with
    | .ok _ => (s2, .ok ())
    | .error e => ({ s2 with data := snap }, .error e)
  | .error e => ({ s1 with data := snap }, .error e)

/-- `CafeDB.count`: `len(self.select(table_name, filters))`. -/
def countOp (o : ReOracle) (s : Sys) (name : String) (filters : Option FilterArg) :
    Sys × Except Err Nat :=
  match select o s name filters none none 0 none false with
  | (s2, .ok rs) => (s2, .ok rs.length)
  | (s2, .error e) => (s2, .error e)

/-- Heap model for aliasing claims.  Python dicts and lists are mutable
heap objects; strings, numbers, `None` and booleans are immutable.  A heap
value is either an immutable value or a reference to a container node. -/
inductive HVal where
  | imm (v : Value)
  | href (a : Nat)
  deriving DecidableEq

inductive HNode where
  | hdict (kvs : List (String × HVal))
  | hlist (xs : List HVal)
  deriving DecidableEq

abbrev Heap := List (Nat × HNode)

def heapGet (h : Heap) (a : Nat) : Option HNode :=
  match h with
  | [] => none
  | (b, nd) :: rest => if b = a then some nd else heapGet rest a

def heapHasAddr (h : Heap) (a : Nat) : Bool := (heapGet h a).isSome

def heapSet (h : Heap) (a : Nat) (nd : HNode) : Heap :=
  h.map (fun p => if p.1 = a then (a, nd) else p)

/-- `row.copy()`: allocate a fresh dict node holding the same (shared)
field values — a shallow copy. -/
def dictCopy (h : Heap) (src fresh : Nat) : Heap :=
  match heapGet h src with
  | some (.hdict kvs) => (fresh, .hdict kvs) :: h
  | _ => h

/-- `d[k] = v` through a reference. -/
def heapSetField (h : Heap) (a : Nat) (k : String) (hv : HVal) : Heap :=
  match heapGet h a with
  | some (.hdict kvs) => heapSet h a (.hdict (setKey kvs k hv))
  | _ => h

/-- The heap-level stage `[row.copy() for row in rows]` of `select` without
a projection: one fresh shallow copy per returned row. -/
def selectCopyRows : Heap → List Nat → Nat → Heap × List Nat
  | h, [], _ => (h, [])
  | h, a :: rest, fresh =>
    let h2 := dictCopy h a fresh
    let (h3, addrs) := selectCopyRows h2 rest (fresh + 1)
    (h3, fresh :: addrs)

/-- Read a list of heap values with a given element reader. -/
def readListWith (f : HVal → Option Value) : List HVal → Option (List Value)
  | [] => some []
  | hv :: rest =>
    match f hv, readListWith f rest with
    | some v, some l => some (v :: l)
    | _, _ => none

def readKVsWith (f : HVal → Option Value) :
    List (String × HVal) → Option (List (String × Value))
  | [] => some []
  | (k, hv) :: rest =>
    match f hv, readKVsWith f rest with
    | some v, some l => some ((k, v) :: l)
    | _, _ => none

/-- Read the pure JSON value a heap value denotes (fuel-bounded to keep the
reader total on arbitrary heaps). -/
def readHVal (h : Heap) : Nat → HVal → Option Value
  | _, .imm v => some v
  | 0, .href _ => none
  | fuel + 1, .href a =>
    match heapGet h a with
    | some (.hdict kvs) => (readKVsWith (readHVal h fuel) kvs).map .obj
    | some (.hlist xs) => (readListWith (readHVal h fuel) xs).map .arr
    | none => none

def hvalMentions (a : Nat) : HVal → Bool
  | .href b => b == a
  | .imm _ => false

def nodeMentions (a : Nat) : HNode → Bool
  | .hdict kvs => kvs.any (fun kv => hvalMentions a kv.2)
  | .hlist xs => xs.any (hvalMentions a)

/-- `a` is referenced by some node of the heap. -/
def heapMentions (h : Heap) (a : Nat) : Bool := h.any (fun p => nodeMentions a p.2)

/-- Whether a top-level entry is a record sequence. -/
def isTableEntry (d : DBData) (n : String) : Bool :=
  match alookup d n with
  | some (.tableE _) => true
  | _ => false

/-- The store invariant of spec §3: a proper `_meta` entry is present, the
top-level keys are unique, the collection list is duplicate-free, every
listed name has a table entry, every top-level key is `_meta` or a listed
collection, and no collection name starts with the reserved prefix. -/
def wfData (d : DBData) : Bool :=
  match alookup d "_meta" with
  | some (.metaE m) =>
    decide ((d.map Prod.fst).Nodup) &&
    decide (m.tables.Nodup) &&
    m.tables.all (fun n => isTableEntry d n && !strStartsWith n "_") &&
    (d.map Prod.fst).all (fun k => k == "_meta" || m.tables.contains k)
  | _ => false

/-- The record count of a collection (`None` when the name has no table
entry). -/
def rowCount (d : DBData) (n : String) : Option Nat :=
  match alookup d n with
  | some (.tableE rows) => some rows.length
  | _ => none

/-- The `last_modified` metadata field of a store. -/
def metaLastModified (d : DBData) : Option (Option String) :=
  match alookup d "_meta" with
  | some (.metaE m) => some m.last_modified
  | _ => none

/-- The fifteen recognized operators, in the order the source lists them. -/
def validOps : List String :=
  ["$eq", "$ne", "$gt", "$gte", "$lt", "$lte", "$in", "$nin",
   "$like", "$regex", "$contains", "$startswith", "$endswith", "$between", "$exists"]

theorem alookup_setKey {α : Type} (d : List (String × α)) (k k2 : String) (v : α) :
    alookup (setKey d k v) k2 = if k = k2 then some v else alookup d k2 := by
  induction d with
  | nil => by_cases h : k = k2 <;> simp [setKey, alookup, h]
  | cons kv rest ih =>
    obtain ⟨k1, w⟩ := kv
    by_cases h1 : k1 = k
    · subst h1
      by_cases h2 : k1 = k2 <;> simp [setKey, alookup, h2]
    · by_cases h2 : k1 = k2
      · subst h2
        have hne : ¬ k = k1 := fun h => h1 h.symm
        simp [setKey, alookup, h1, hne]
      · simp [setKey, alookup, h1, h2, ih]

theorem alookup_eq_none {α : Type} (d : List (String × α)) (k : String)
    (h : k ∉ d.map Prod.fst) : alookup d k = none := by
  induction d with
  | nil => rfl
  | cons kv rest ih =>
    obtain ⟨k1, w⟩ := kv
    simp only [List.map_cons, List.mem_cons] at h
    push_neg at h
    have hne : ¬ (k1 = k) := fun he => h.1 he.symm
    simp only [alookup, if_neg hne]
    exact ih h.2

theorem alookup_append {α : Type} (d1 d2 : List (String × α)) (k : String) :
    alookup (d1 ++ d2) k =
      match alookup d1 k with
      | some v => some v
      | none => alookup d2 k := by
  induction d1 with
  | nil => simp [alookup]
  | cons kv rest ih =>
    by_cases h : kv.1 = k <;> simp [alookup, h, ih]

theorem alookup_delKey {α : Type} (d : List (String × α)) (k k2 : String)
    (hnd : (d.map Prod.fst).Nodup) :
    alookup (delKey d k) k2 = if k = k2 then none else alookup d k2 := by
  induction d with
  | nil => simp [delKey, alookup]
  | cons kv rest ih =>
    obtain ⟨k1, w⟩ := kv
    simp only [List.map_cons, List.nodup_cons] at hnd
    by_cases h1 : k1 = k
    · subst h1
      by_cases h2 : k1 = k2
      · subst h2
        simp [delKey, alookup_eq_none rest k1 hnd.1]
      · simp [delKey, alookup, h2, fun h : k1 = k2 => h2 h]
    · by_cases h2 : k1 = k2
      · subst h2
        have hne : ¬ k = k1 := fun h => h1 h.symm
        simp [delKey, alookup, h1, hne]
      · simp [delKey, alookup, h1, h2, ih hnd.2]

/-- A trivial regex oracle for concrete examples (none of them exercises
`$regex` or a wildcard). -/
def trivOracle : ReOracle :=
  { search := fun _ _ => .ok false, matchA := fun _ _ => .ok false }

def exMeta : Meta :=
  { tables := ["users"], created := "T0", version := "1.0.0", last_modified := none }

def aliceRow : Record := [("name", .str "Alice"), ("age", .int 28)]

def bobRow : Record := [("name", .str "Bob"), ("age", .int 34)]

/-- A small concrete store with one collection `users`. -/
def exStore : Sys :=
  { data := [("_meta", .metaE exMeta), ("users", .tableE [aliceRow, bobRow])]
    file := none, backupFile := none, backupEnabled := true }

/-- **C7.** For every pre-transaction store state and every transaction body
that raises a failure after performing any sequence of mutations, the store
after the transaction exits equals the snapshot taken at entry — in
particular every collection has exactly its pre-transaction record count —
and the failure is re-raised to the caller; no partial effect of the body
survives in the live store. -/
theorem c7_transaction_rollback (s : Sys) (t : String)
    (body : Sys → Sys × Except Err Unit) (s1 : Sys) (e : Err)
    (hb : body s = (s1, .error e)) :
    (transaction s t body).1.data = s.data ∧
    (transaction s t body).2 = .error e ∧
    ∀ n : String, rowCount (transaction s t body).1.data n = rowCount s.data n := by
  simp [transaction, hb]

/-- A transaction body performing two inserts and then raising. -/
def c7Body (s : Sys) : Sys × Except Err Unit :=
  let r1 := insert s "users" [("name", .str "Carol")] "T1"
  let r2 := insert r1.1 "users" [("name", .str "Dave")] "T1"
  (r2.1, .error (.queryError "boom"))

theorem c7_transaction_rollback_witness :
    (transaction exStore "T2" c7Body).1.data = exStore.data ∧
    (transaction exStore "T2" c7Body).2 = .error (.queryError "boom") ∧
    ∀ n : String, rowCount (transaction exStore "T2" c7Body).1.data n = rowCount exStore.data n :=
  c7_transaction_rollback exStore "T2" c7Body (c7Body exStore).1 (.queryError "boom") rfl

/-- **C2.** For every record and every filter whose condition mapping for a
field contains `"$exists"` mapped to a boolean `b`, that field's condition
evaluates to true iff `b` equals the presence of the field key in the
record; every other operator key in the same mapping is ignored (the
`$exists` check short-circuits them, so even an unknown sibling operator
raises nothing), and the presence check happens before any lookup of the
field's value (the result depends only on `hasKey row field`). -/
theorem c2_exists_check (o : ReOracle) (row : Record) (field : String)
    (kvs : List (String × Value)) (b : Bool) (rest : List (String × Value))
    (hex : alookup kvs "$exists" = some (.bool b)) :
    condLoop o row ((field, .obj kvs) :: rest) =
      (if b == hasKey row field then condLoop o row rest else .ok false) ∧
    conditionFunc o [(field, .obj kvs)] row = .ok (b == hasKey row field) := by
  have hck : condHasExists (.obj kvs) = true := by
    simp [condHasExists, hasKey, hex]
  have hov : existsOpVal (.obj kvs) = .bool b := by
    simp [existsOpVal, hex]
  have hpe : pyEq (existsOpVal (.obj kvs)) (.bool (hasKey row field)) =
      (b == hasKey row field) := by
    rw [hov]; simp [pyEq]
  constructor
  · rw [condLoop, if_pos hck, hpe]
    cases hb : (b == hasKey row field) <;> simp
  · rw [conditionFunc, condLoop, if_pos hck, hpe]
    cases hb : (b == hasKey row field) <;> simp [condLoop]

theorem c2_exists_check_witness :
    conditionFunc trivOracle
      [("age", .obj [("$exists", .bool true), ("$bogus", .int 1)])] aliceRow = .ok true :=
  Eq.trans
    ((c2_exists_check trivOracle aliceRow "age"
      [("$exists", .bool true), ("$bogus", .int 1)] true [] rfl).2)
    (congrArg Except.ok (by decide))

/-- **C10.** For every store whose raw top-level mapping holds the reserved
`_meta` entry (which `__init__` always establishes), the
collection-existence test returns true for `"_meta"` because it checks
membership in the raw mapping; yet (on a well-formed store) `"_meta"` is
never in the collection listing, and it can never become a created
collection — `create_table "_meta"` raises the already-exists error and
leaves the store unchanged. -/
theorem c10_meta_exists (s : Sys) (m : Meta)
    (hm : alookup s.data "_meta" = some (.metaE m))
    (hwf : wfData s.data = true) :
    exists_table s "_meta" = true ∧
    list_tables s = .ok m.tables ∧
    "_meta" ∉ m.tables ∧
    ∀ t : String,
      create_table s "_meta" t =
        (s, .error (.tableExists
          "Table \x27_meta\x27 already exists. Use drop_table() first or choose a different name.")) := by
  have hk : hasKey s.data "_meta" = true := by simp [hasKey, hm]
  refine ⟨hk, by simp [list_tables, hm], ?_, ?_⟩
  · intro hin
    rw [wfData, hm] at hwf
    simp only [Bool.and_eq_true, List.all_eq_true] at hwf
    have h3 := (hwf.1.2 "_meta" hin).2
    have h2 : strStartsWith "_meta" "_" = true := by decide
    rw [h2] at h3
    simp at h3
  · intro t
    rw [create_table, if_pos hk]
    rfl

theorem c10_meta_exists_witness :
    exists_table exStore "_meta" = true ∧
    list_tables exStore = .ok exMeta.tables ∧
    "_meta" ∉ exMeta.tables ∧
    ∀ t : String,
      create_table exStore "_meta" t =
        (exStore, .error (.tableExists
          "Table \x27_meta\x27 already exists. Use drop_table() first or choose a different name.")) :=
  c10_meta_exists exStore exMeta rfl (by decide)

/-- A store whose only record has no `age` field. -/
def c3Store : Sys :=
  { data := [("_meta", .metaE exMeta), ("users", .tableE [[("name", .str "Alice")]])]
    file := none, backupFile := none, backupEnabled := true }

/-- **C3 counterexample.** The claim asserts that *every* evaluation of a
filter containing an unrecognized operator raises a query error.  It does
not: the per-field loop returns `False` for a record that lacks the field
before the operator mapping is ever inspected, so on this store the filter
`{"age": {"$bogus": 1}}` makes `select` return an empty result with no
error at all. -/
theorem c3_counterexample :
    select trivOracle c3Store "users"
      (some (.fdict [("age", .obj [("$bogus", .int 1)])])) none none 0 none false =
      (c3Store, .ok []) := by
  rfl

/-- **C3 amended.** An unknown operator raises exactly when the evaluation
reaches it.  (1) `matchOps` raises the unknown-operator query error when
its scan hits an operator key outside the fifteen recognized ones (stated
for a leading unknown key; an earlier operator returning `False` would stop
the scan first).  (2) Lifted through `select`: if a filter maps a field to
a condition whose first operator key is unrecognized, the condition has no
`$exists` key, and the collection's first record contains the field, then
`select` raises the query error and leaves the store unmodified. -/
theorem c3_unknown_operator (o : ReOracle) (op : String) (opv : Value)
    (rest : List (String × Value)) (hop : op ∉ validOps) :
    (∀ value : Value,
      matchOps o value ((op, opv) :: rest) = .error (.queryError (unknownOpMsg op))) ∧
    (∀ (s : Sys) (name field : String) (r0 : Record) (rows : List Record)
      (v : Value) (fields : Option (List String)) (lim : Option Int) (off : Int)
      (ob : Option String) (rev : Bool),
      alookup s.data name = some (.tableE (r0 :: rows)) →
      alookup r0 field = some v →
      hasKey ((op, opv) :: rest) "$exists" = false →
      select o s name (some (.fdict [(field, .obj ((op, opv) :: rest))])) fields lim off ob rev =
        (s, .error (.queryError (unknownOpMsg op)))) := by
  simp only [validOps, List.mem_cons, List.not_mem_nil, or_false, not_or] at hop
  obtain ⟨h1, h2, h3, h4, h5, h6, h7, h8, h9, h10, h11, h12, h13, h14, h15⟩ := hop
  have hops : ∀ value : Value,
      matchOps o value ((op, opv) :: rest) = .error (.queryError (unknownOpMsg op)) := by
    intro value
    have hstep : matchOp1 o value op opv = .error (.queryError (unknownOpMsg op)) := by
      unfold matchOp1
      rw [if_neg h1, if_neg h2, if_neg h3, if_neg h4, if_neg h5, if_neg h6, if_neg h7,
        if_neg h8, if_neg h9, if_neg h10, if_neg h11, if_neg h12, if_neg h13, if_neg h14,
        if_neg h15]
    simp only [matchOps, h15, if_false, ite_false, hstep]
  refine ⟨hops, ?_⟩
  intro s name field r0 rows v fields lim off ob rev hlook hfield hnex
  have hk : hasKey s.data name = true := by simp [hasKey, hlook]
  have hcl : condLoop o r0 [(field, .obj ((op, opv) :: rest))] =
      .error (.queryError (unknownOpMsg op)) := by
    rw [condLoop]
    have hce : condHasExists (.obj ((op, opv) :: rest)) = false := by
      simp [condHasExists, hnex]
    rw [if_neg (by simp [hce])]
    rw [hfield]
    simp only [matchCondition, hops v]
  rw [select, hk]
  simp only [Bool.not_true, Bool.false_eq_true, if_false, hlook]
  simp only [applyFilters, conditionFunc, filterE, hcl]

theorem c3_unknown_operator_witness :
    (∀ value : Value,
      matchOps trivOracle value [("$bogus", .int 1)] =
        .error (.queryError (unknownOpMsg "$bogus"))) ∧
    select trivOracle exStore "users"
      (some (.fdict [("age", .obj [("$bogus", .int 1)])])) none none 0 none false =
      (exStore, .error (.queryError (unknownOpMsg "$bogus"))) :=
  have h := c3_unknown_operator trivOracle "$bogus" (.int 1) [] (by decide)
  ⟨h.1, h.2 exStore "users" "age" aliceRow [bobRow] (.int 28) none none 0 none false
    rfl rfl rfl⟩

/-- **C8 counterexample.** `update` on an unknown collection raises a
not-found error whose message is just `Table '<name>' does not exist` — it
does not enumerate the existing collections (the store here has a
collection `users`, and the message does not even contain that name). -/
theorem c8_counterexample :
    update trivOracle exStore "missing" (.fdict []) (.udict []) "T1" =
      (exStore, .error (.tableNotFound "Table \x27missing\x27 does not exist")) ∧
    listIsSub "users".data "Table \x27missing\x27 does not exist".data = false := by
  exact ⟨rfl, by decide⟩

/-- **C8 amended.** Of the name-taking operations, `select` and
`drop_table` raise the not-found error with the message enumerating the
currently existing collections, while `update`, `delete`, `clear_table`
and `stats` raise it with a plain message that enumerates nothing. -/
theorem c8_notfound_messages (o : ReOracle) (s : Sys) (name t av : String)
    (fa : FilterArg) (ua : UpdaterArg)
    (hmem : hasKey s.data name = false) (hav : availableMsg s = .ok av) :
    (select o s name none none none 0 none false).2 =
      .error (.tableNotFound
        ("Table \x27" ++ name ++ "\x27 does not exist. Available tables: " ++ av)) ∧
    (drop_table s name t).2 =
      .error (.tableNotFound
        ("Table \x27" ++ name ++ "\x27 does not exist. Available tables: " ++ av)) ∧
    (update o s name fa ua t).2 =
      .error (.tableNotFound ("Table \x27" ++ name ++ "\x27 does not exist")) ∧
    (delete o s name fa t).2 =
      .error (.tableNotFound ("Table \x27" ++ name ++ "\x27 does not exist")) ∧
    (clear_table s name t).2 =
      .error (.tableNotFound ("Table \x27" ++ name ++ "\x27 does not exist")) ∧
    (stats s name).2 =
      .error (.tableNotFound ("Table \x27" ++ name ++ "\x27 does not exist")) := by
  refine ⟨?_, ?_, ?_, ?_, ?_, ?_⟩
  · rw [select, hmem]; simp [hav]
  · rw [drop_table, hmem]; simp [hav]
  · rw [update, hmem]; simp
  · rw [delete, hmem]; simp
  · rw [clear_table, hmem]; simp
  · rw [stats, hmem]; simp

theorem c8_notfound_messages_witness :
    (select trivOracle exStore "missing" none none none 0 none false).2 =
      .error (.tableNotFound "Table \x27missing\x27 does not exist. Available tables: users") ∧
    (drop_table exStore "missing" "T1").2 =
      .error (.tableNotFound "Table \x27missing\x27 does not exist. Available tables: users") ∧
    (update trivOracle exStore "missing" (.fdict []) (.udict []) "T1").2 =
      .error (.tableNotFound "Table \x27missing\x27 does not exist") ∧
    (delete trivOracle exStore "missing" (.fdict []) "T1").2 =
      .error (.tableNotFound "Table \x27missing\x27 does not exist") ∧
    (clear_table exStore "missing" "T1").2 =
      .error (.tableNotFound "Table \x27missing\x27 does not exist") ∧
    (stats exStore "missing").2 =
      .error (.tableNotFound "Table \x27missing\x27 does not exist") :=
  c8_notfound_messages trivOracle exStore "missing" "T1" "users"
    (.fdict []) (.udict []) rfl rfl

/-- **C9.** The invariant-preservation claim is right as a specification,
but the code has a slip: `drop_table` checks existence against the raw
top-level mapping, which always contains the reserved key `"_meta"`.
`drop_table "_meta"` therefore passes the check (instead of the documented
`TableNotFoundError`), deletes the metadata entry, and then raises an
uncaught `KeyError` at the metadata update — the store is left with no
metadata at all, destroying the invariant. -/
theorem c9_drop_meta_corrupts :
    wfData exStore.data = true ∧
    drop_table exStore "_meta" "T1" =
      ({ exStore with data := [("users", .tableE [aliceRow, bobRow])] },
        .error (.pyError "KeyError")) ∧
    wfData (drop_table exStore "_meta" "T1").1.data = false := by
  exact ⟨by decide, rfl, by decide⟩

/-- The store produced by a fresh open (no file on disk) at time `T0`. -/
def c1Boot : Sys := (openDB none none true "T0").1

/-- **C1 counterexample.** A durable write refreshes the in-memory
`last_modified` only *after* serializing, so the file carries the pre-write
stamp.  After writing the freshly opened store at `T1`, the in-memory store
has `last_modified = some "T1"` while reopening the file yields
`last_modified = some "T0"`: the reopened store is not equal to the
in-memory store that was written — the metadata fields differ. -/
theorem c1_counterexample :
    metaLastModified (writeDb c1Boot "T1").1.data = some (some "T1") ∧
    metaLastModified
      (openDB (writeDb c1Boot "T1").1.file none true "T2").1.data = some (some "T0") ∧
    (openDB (writeDb c1Boot "T1").1.file none true "T2").1.data ≠ (writeDb c1Boot "T1").1.data := by
  exact ⟨rfl, rfl, by decide⟩

/-- **C1 amended.** Writing a store and reopening the same path yields the
store exactly as it was at serialization time: every collection's record
sequence and every metadata field of the reopened store equals the
pre-write in-memory store.  The in-memory store after the write differs
from this in exactly one field — `last_modified`, refreshed after the file
swap. -/
theorem c1_roundtrip_modulo_lastmod (s : Sys) (t t2 : String) (m : Meta)
    (hm : alookup s.data "_meta" = some (.metaE m)) :
    (openDB (writeDb s t).1.file (writeDb s t).1.backupFile
        (writeDb s t).1.backupEnabled t2).1.data = s.data ∧
    (writeDb s t).1.data = setKey s.data "_meta" (.metaE { m with last_modified := some t }) := by
  have h1 : (writeDb s t).1.file = some s.data ∧
      (writeDb s t).1.data =
        setKey s.data "_meta" (.metaE { m with last_modified := some t }) := by
    rw [writeDb]
    cases hb : s.backupEnabled && s.file.isSome <;> simp [hb, hm]
  refine ⟨?_, h1.2⟩
  rw [h1.1]
  have hk : hasKey s.data "_meta" = true := by simp [hasKey, hm]
  simp [openDB, hk]

theorem c1_roundtrip_modulo_lastmod_witness :
    (openDB (writeDb exStore "T5").1.file (writeDb exStore "T5").1.backupFile
        (writeDb exStore "T5").1.backupEnabled "T6").1.data = exStore.data ∧
    (writeDb exStore "T5").1.data =
      setKey exStore.data "_meta" (.metaE { exMeta with last_modified := some "T5" }) :=
  c1_roundtrip_modulo_lastmod exStore "T5" "T6" exMeta rfl

theorem pySliceFrom_ofNat (n : Nat) (l : List Record) :
    pySliceFrom (n : Int) l = l.drop n := by
  rw [pySliceFrom]
  by_cases h : (n : Int) > 0
  · rw [if_pos h]
    simp
  · rw [if_neg h]
    have hn : n = 0 := by omega
    simp [hn]

theorem pySliceTake_ofNat (m : Nat) (l : List Record) :
    pySliceTake (m : Int) l = l.take m := by
  rw [pySliceTake, if_pos (Int.ofNat_nonneg m)]
  simp

/-- **C4.** `select` resolves its stages in the order
filter → sort → offset/limit → projection: for every collection, filter,
sort key, offset `n` and limit `m`, the result is exactly elements
`n+1 .. n+m` of the full filtered-and-sorted sequence (then projected) —
pagination is applied to the whole filtered+sorted list, not to the raw
collection. -/
theorem c4_pipeline_order (o : ReOracle) (s : Sys) (name : String)
    (rows frows : List Record) (filters : Option FilterArg)
    (fieldsArg : Option (List String)) (ob : Option String) (rev : Bool) (n m : Nat)
    (hlook : alookup s.data name = some (.tableE rows))
    (hfil : applyFilters o filters rows = .ok frows) :
    select o s name filters fieldsArg (some (m : Int)) (n : Int) ob rev =
      (s, .ok ((((sortStage ob rev frows).drop n).take m).map
        (fun r =>
          match fieldsArg with
          | some fl => projRow fl r
          | none => r))) := by
  have hk : hasKey s.data name = true := by simp [hasKey, hlook]
  rw [select, hk]
  simp only [Bool.not_true, Bool.false_eq_true, if_false, hlook, hfil]
  cases fieldsArg <;>
    simp [pySliceTakeOpt, pySliceFrom_ofNat, pySliceTake_ofNat]

theorem c4_pipeline_order_witness :
    select trivOracle exStore "users" none none (some ((1 : Nat) : Int)) ((1 : Nat) : Int)
        (some "age") true =
      (exStore, .ok ((((sortStage (some "age") true [aliceRow, bobRow]).drop 1).take 1).map
        (fun r => r))) := by
  have h := c4_pipeline_order trivOracle exStore "users" [aliceRow, bobRow]
    [aliceRow, bobRow] none none (some "age") true 1 1 rfl rfl
  exact h

theorem beq_comm2 {α : Type} [BEq α] [LawfulBEq α] (a b : α) : (a == b) = (b == a) := by
  rw [Bool.eq_iff_iff]
  simp only [beq_iff_eq]
  exact eq_comm

mutual

theorem pyEq_symm : ∀ a b : Value, pyEq a b = pyEq b a
  | .null, .null => by simp [pyEq]
  | .bool x, .bool y => by simp only [pyEq]; exact beq_comm2 x y
  | .bool x, .int n => by simp only [pyEq]; exact beq_comm2 _ n
  | .int n, .bool x => by simp only [pyEq]; exact beq_comm2 n _
  | .int a, .int b => by simp only [pyEq]; exact beq_comm2 a b
  | .str a, .str b => by simp only [pyEq]; exact beq_comm2 a b
  | .arr xs, .arr ys => by simp only [pyEq]; exact pyEqL_symm xs ys
  | .obj xs, .obj ys => by simp only [pyEq]; exact Bool.and_comm _ _
  | .null, .bool _ | .null, .int _ | .null, .str _ | .null, .arr _ | .null, .obj _
  | .bool _, .null | .bool _, .str _ | .bool _, .arr _ | .bool _, .obj _
  | .int _, .null | .int _, .str _ | .int _, .arr _ | .int _, .obj _
  | .str _, .null | .str _, .bool _ | .str _, .int _ | .str _, .arr _ | .str _, .obj _
  | .arr _, .null | .arr _, .bool _ | .arr _, .int _ | .arr _, .str _ | .arr _, .obj _
  | .obj _, .null | .obj _, .bool _ | .obj _, .int _ | .obj _, .str _ | .obj _, .arr _ =>
    by simp [pyEq]
termination_by a b => sizeOf a + sizeOf b

theorem pyEqL_symm : ∀ xs ys : List Value, pyEqL xs ys = pyEqL ys xs
  | [], [] => by simp [pyEqL]
  | [], _ :: _ => by simp [pyEqL]
  | _ :: _, [] => by simp [pyEqL]
  | x :: xs, y :: ys => by
      simp only [pyEqL]
      rw [pyEq_symm x y, pyEqL_symm xs ys]
termination_by xs ys => sizeOf xs + sizeOf ys

end

theorem intCmp_swap (a b : Int) : intCmp b a = (intCmp a b).swap := by
  rcases lt_trichotomy a b with h | h | h
  · have h2 : ¬ b < a := by omega
    simp [intCmp, h, h2, Ordering.swap]
  · subst h
    simp [intCmp, lt_irrefl, Ordering.swap]
  · have h2 : ¬ a < b := by omega
    simp [intCmp, h, h2, Ordering.swap]

theorem charCmp_swap (a b : Char) : charCmp b a = (charCmp a b).swap := by
  rcases lt_trichotomy a.toNat b.toNat with h | h | h
  · have h2 : ¬ b.toNat < a.toNat := by omega
    simp [charCmp, h, h2, Ordering.swap]
  · simp [charCmp, h, lt_irrefl, Ordering.swap]
  · have h2 : ¬ a.toNat < b.toNat := by omega
    simp [charCmp, h, h2, Ordering.swap]

theorem charListCmp_swap : ∀ xs ys : List Char, charListCmp ys xs = (charListCmp xs ys).swap
  | [], [] => rfl
  | [], _ :: _ => rfl
  | _ :: _, [] => rfl
  | a :: as2, b :: bs => by
      simp only [charListCmp]
      rw [charCmp_swap a b]
      cases h : charCmp a b
      · rfl
      · exact charListCmp_swap as2 bs
      · rfl

theorem strCmp_swap (a b : String) : strCmp b a = (strCmp a b).swap :=
  charListCmp_swap a.data b.data

mutual

theorem pyCmp_swap : ∀ a b : Value, pyCmp b a = (pyCmp a b).map Ordering.swap
  | .int a, .int b => by
      simp only [pyCmp]
      rw [intCmp_swap]
      rfl
  | .int a, .bool y => by
      simp only [pyCmp]
      rw [intCmp_swap]
      rfl
  | .bool x, .int b => by
      simp only [pyCmp]
      rw [intCmp_swap]
      rfl
  | .bool x, .bool y => by
      simp only [pyCmp]
      rw [intCmp_swap]
      rfl
  | .str a, .str b => by
      simp only [pyCmp]
      rw [strCmp_swap]
      rfl
  | .arr xs, .arr ys => by
      simp only [pyCmp]
      exact pyCmpL_swap xs ys
  | .null, .null | .null, .bool _ | .null, .int _ | .null, .str _ | .null, .arr _
  | .null, .obj _
  | .bool _, .null | .bool _, .str _ | .bool _, .arr _ | .bool _, .obj _
  | .int _, .null | .int _, .str _ | .int _, .arr _ | .int _, .obj _
  | .str _, .null | .str _, .bool _ | .str _, .int _ | .str _, .arr _ | .str _, .obj _
  | .arr _, .null | .arr _, .bool _ | .arr _, .int _ | .arr _, .str _ | .arr _, .obj _
  | .obj _, .null | .obj _, .bool _ | .obj _, .int _ | .obj _, .str _ | .obj _, .arr _
  | .obj _, .obj _ =>
    by simp [pyCmp]
termination_by a b => sizeOf a + sizeOf b

theorem pyCmpL_swap : ∀ xs ys : List Value, pyCmpL ys xs = (pyCmpL xs ys).map Ordering.swap
  | [], [] => by simp [pyCmpL, Ordering.swap]
  | [], _ :: _ => by simp [pyCmpL, Ordering.swap]
  | _ :: _, [] => by simp [pyCmpL, Ordering.swap]
  | x :: xs, y :: ys => by
      simp only [pyCmpL]
      rw [pyEq_symm y x]
      cases h : pyEq x y
      · simp only [h, Bool.false_eq_true, if_false, ite_false]
        exact pyCmp_swap x y
      · simp only [h, if_true, ite_true]
        exact pyCmpL_swap xs ys
termination_by xs ys => sizeOf xs + sizeOf ys

end

theorem isLtO_swap (x : Option Ordering) : isLtO (x.map Ordering.swap) = isGtO x := by
  cases x with
  | none => rfl
  | some o => cases o <;> rfl

theorem isGtO_swap (x : Option Ordering) : isGtO (x.map Ordering.swap) = isLtO x := by
  cases x with
  | none => rfl
  | some o => cases o <;> rfl

theorem isGtO_false_of_isLtO (x : Option Ordering) (h : isLtO x = true) :
    isGtO x = false := by
  cases x with
  | none => rfl
  | some o => cases o <;> first | rfl | exact absurd h (by simp [isLtO])

theorem isLtO_false_of_isGtO (x : Option Ordering) (h : isGtO x = true) :
    isLtO x = false := by
  cases x with
  | none => rfl
  | some o => cases o <;> first | rfl | exact absurd h (by simp [isGtO])

theorem rowLt_asymm (ob : String) (rev : Bool) (a b : Record) :
    rowLt ob rev a b = true → rowLt ob rev b a = false := by
  intro h
  cases rev <;>
    simp only [rowLt, Bool.false_eq_true, if_false, if_true, ite_true, ite_false] at h ⊢
  · rw [pyCmp_swap (sortKey ob a) (sortKey ob b), isLtO_swap]
    exact isGtO_false_of_isLtO _ h
  · rw [pyCmp_swap (sortKey ob a) (sortKey ob b), isGtO_swap]
    exact isLtO_false_of_isGtO _ h

theorem rowLtStr_asymm (ob : String) (rev : Bool) (a b : Record) :
    rowLtStr ob rev a b = true → rowLtStr ob rev b a = false := by
  intro h
  have hs : (some (strCmp (pyStr (sortKey ob b)) (pyStr (sortKey ob a))) : Option Ordering) =
      (some (strCmp (pyStr (sortKey ob a)) (pyStr (sortKey ob b)))).map Ordering.swap := by
    rw [strCmp_swap]
    rfl
  cases rev <;>
    simp only [rowLtStr, Bool.false_eq_true, if_false, if_true, ite_true, ite_false] at h ⊢
  · rw [hs, isLtO_swap]
    exact isGtO_false_of_isLtO _ h
  · rw [hs, isGtO_swap]
    exact isLtO_false_of_isGtO _ h

theorem insStable_perm {α : Type} (lt : α → α → Bool) (x : α) :
    ∀ l : List α, (insStable lt x l).Perm (x :: l)
  | [] => List.Perm.refl _
  | y :: ys => by
      rw [insStable]
      by_cases h : lt x y
      · rw [if_pos h]
      · rw [if_neg h]
        exact ((insStable_perm lt x ys).cons y).trans (List.Perm.swap x y ys)

theorem pySortL_aux_perm {α : Type} (lt : α → α → Bool) :
    ∀ (l acc : List α),
      (l.foldl (fun acc x => insStable lt x acc) acc).Perm (acc ++ l)
  | [], acc => by simp
  | x :: xs, acc => by
      simp only [List.foldl_cons]
      refine (pySortL_aux_perm lt xs (insStable lt x acc)).trans ?_
      refine ((insStable_perm lt x acc).append_right xs).trans ?_
      simpa using List.perm_middle.symm

theorem pySortL_perm {α : Type} (lt : α → α → Bool) (l : List α) :
    (pySortL lt l).Perm l := by
  simpa [pySortL] using pySortL_aux_perm lt l []

theorem insStable_chain {α : Type} (lt : α → α → Bool)
    (hasym : ∀ a b, lt a b = true → lt b a = false) (x : α) :
    ∀ l : List α, List.Chain' (fun a b => lt b a = false) l →
      List.Chain' (fun a b => lt b a = false) (insStable lt x l)
  | [], _ => by simp [insStable]
  | y :: ys, hc => by
      rw [insStable]
      by_cases h : lt x y
      · rw [if_pos h]
        exact hc.cons (hasym x y h)
      · rw [if_neg h]
        have htail : List.Chain' (fun a b => lt b a = false) (insStable lt x ys) :=
          insStable_chain lt hasym x ys hc.tail
      -- sorry placeholder? no
        refine List.chain'_cons'.mpr ⟨?_, htail⟩
        intro w hw
        cases ys with
        | nil =>
          simp only [insStable, List.head?_cons, Option.mem_def, Option.some.injEq] at hw
          subst hw
          simpa using h
        | cons z zs =>
          rw [insStable] at hw
          by_cases h2 : lt x z
          · rw [if_pos h2] at hw
            simp only [List.head?_cons, Option.mem_def, Option.some.injEq] at hw
            subst hw
            simpa using h
          · rw [if_neg h2] at hw
            simp only [List.head?_cons, Option.mem_def, Option.some.injEq] at hw
            subst hw
            exact (List.chain'_cons.mp hc).1

theorem pySortL_chain_aux {α : Type} (lt : α → α → Bool)
    (hasym : ∀ a b, lt a b = true → lt b a = false) :
    ∀ (l acc : List α), List.Chain' (fun a b => lt b a = false) acc →
      List.Chain' (fun a b => lt b a = false)
        (l.foldl (fun acc x => insStable lt x acc) acc)
  | [], _, hc => hc
  | x :: xs, acc, hc =>
      pySortL_chain_aux lt hasym xs (insStable lt x acc) (insStable_chain lt hasym x acc hc)

theorem pySortL_chain {α : Type} (lt : α → α → Bool)
    (hasym : ∀ a b, lt a b = true → lt b a = false) (l : List α) :
    List.Chain' (fun a b => lt b a = false) (pySortL lt l) :=
  pySortL_chain_aux lt hasym l [] List.chain'_nil

/-- **C5.** `select` with a sort field never raises due to incomparable
sort-key types: (1) whenever the collection exists and the filter stage
succeeds, `select` with any `order_by` returns a result; (2) the sort stage
permutes the filtered rows; (3) a record missing the sort field is keyed by
the empty string; (4) when all keys are mutually comparable the output is
sorted by the Python key order — ascending unless `reverse` (adjacent pairs
never strictly decrease w.r.t. `rowLt`); (5) when they are not, the sort
falls back to the string representation of the keys and the output is
sorted by that order instead. -/
theorem c5_sort_total_fallback (o : ReOracle) (s : Sys) (name : String)
    (rows frows : List Record) (filters : Option FilterArg)
    (fieldsArg : Option (List String)) (lim : Option Int) (off : Int)
    (ob : String) (rev : Bool)
    (hlook : alookup s.data name = some (.tableE rows))
    (hfil : applyFilters o filters rows = .ok frows) :
    (∃ rs, select o s name filters fieldsArg lim off (some ob) rev = (s, .ok rs)) ∧
    (sortStage (some ob) rev frows).Perm frows ∧
    (∀ r : Record, hasKey r ob = false → sortKey ob r = .str "") ∧
    (ob ≠ "" → pairwiseComparable ob frows = true →
      (sortStage (some ob) rev frows).Chain' (fun a b => rowLt ob rev b a = false)) ∧
    (ob ≠ "" → pairwiseComparable ob frows = false →
      (sortStage (some ob) rev frows).Chain' (fun a b => rowLtStr ob rev b a = false)) := by
  refine ⟨?_, ?_, ?_, ?_, ?_⟩
  · have hk : hasKey s.data name = true := by simp [hasKey, hlook]
    have heq : select o s name filters fieldsArg lim off (some ob) rev =
        (s, .ok (match fieldsArg with
          | some fl =>
            (pySliceTakeOpt lim (pySliceFrom off (sortStage (some ob) rev frows))).map
              (projRow fl)
          | none =>
            (pySliceTakeOpt lim (pySliceFrom off (sortStage (some ob) rev frows))).map
              (fun r => r))) := by
      rw [select, hk]
      simp only [Bool.not_true, Bool.false_eq_true, if_false, hlook, hfil]
      cases fieldsArg <;> rfl
    exact ⟨_, heq⟩
  · simp only [sortStage]
    split_ifs
    · exact List.Perm.refl _
    · exact pySortL_perm _ _
    · exact pySortL_perm _ _
  · intro r h
    simp only [hasKey] at h
    cases hal : alookup r ob with
    | none => simp [sortKey, hal]
    | some v =>
      rw [hal] at h
      simp at h
  · intro hne hcmp
    simp only [sortStage]
    rw [if_neg hne, if_pos hcmp]
    exact pySortL_chain _ (rowLt_asymm ob rev) frows
  · intro hne hcmp
    simp only [sortStage]
    rw [if_neg hne, if_neg (by simp [hcmp])]
    exact pySortL_chain _ (rowLtStr_asymm ob rev) frows

theorem c5_sort_total_fallback_witness :
    (∃ rs, select trivOracle exStore "users" none none none 0 (some "age") false =
      (exStore, .ok rs)) ∧
    (sortStage (some "age") false [aliceRow, bobRow]).Perm [aliceRow, bobRow] ∧
    (∀ r : Record, hasKey r "age" = false → sortKey "age" r = .str "") ∧
    ("age" ≠ "" → pairwiseComparable "age" [aliceRow, bobRow] = true →
      (sortStage (some "age") false [aliceRow, bobRow]).Chain'
        (fun a b => rowLt "age" false b a = false)) ∧
    ("age" ≠ "" → pairwiseComparable "age" [aliceRow, bobRow] = false →
      (sortStage (some "age") false [aliceRow, bobRow]).Chain'
        (fun a b => rowLtStr "age" false b a = false)) :=
  c5_sort_total_fallback trivOracle exStore "users" [aliceRow, bobRow] [aliceRow, bobRow]
    none none none 0 "age" false rfl rfl

theorem heapGet_not_mentions (h : Heap) (fresh a : Nat) (nd : HNode)
    (hh : heapMentions h fresh = false) (hg : heapGet h a = some nd) :
    nodeMentions fresh nd = false := by
  induction h with
  | nil => simp [heapGet] at hg
  | cons p rest ih =>
    obtain ⟨b, node⟩ := p
    simp only [heapMentions, List.any_cons, Bool.or_eq_false_iff] at hh
    rw [heapGet] at hg
    by_cases hb : b = a
    · rw [if_pos hb] at hg
      cases hg
      exact hh.1
    · rw [if_neg hb] at hg
      exact ih hh.2 hg

theorem heapSet_not_addr (h : Heap) (a : Nat) (nd : HNode)
    (ha : heapHasAddr h a = false) : heapSet h a nd = h := by
  induction h with
  | nil => rfl
  | cons p rest ih =>
    obtain ⟨b, node⟩ := p
    rw [heapHasAddr, heapGet] at ha
    by_cases hb : b = a
    · rw [if_pos hb] at ha
      simp at ha
    · rw [if_neg hb] at ha
      simp only [heapSet, List.map_cons]
      rw [if_neg hb]
      exact congrArg _ (ih ha)

theorem readKVsWith_congr (f g : HVal → Option Value) :
    ∀ kvs : List (String × HVal), (∀ kv ∈ kvs, f kv.2 = g kv.2) →
      readKVsWith f kvs = readKVsWith g kvs
  | [], _ => rfl
  | (k, hv) :: rest, hp => by
      rw [readKVsWith, readKVsWith, hp (k, hv) (List.mem_cons_self _ _),
        readKVsWith_congr f g rest (fun kv hm => hp kv (List.mem_cons_of_mem _ hm))]

theorem readListWith_congr (f g : HVal → Option Value) :
    ∀ xs : List HVal, (∀ hv ∈ xs, f hv = g hv) →
      readListWith f xs = readListWith g xs
  | [], _ => rfl
  | hv :: rest, hp => by
      rw [readListWith, readListWith, hp hv (List.mem_cons_self _ _),
        readListWith_congr f g rest (fun w hm => hp w (List.mem_cons_of_mem _ hm))]

/-- An entry at an address referenced nowhere (and not by the root) is
invisible to readback. -/
theorem readHVal_cons (h : Heap) (fresh : Nat) (nd : HNode)
    (hh : heapMentions h fresh = false) :
    ∀ (fuel : Nat) (root : HVal), hvalMentions fresh root = false →
      readHVal ((fresh, nd) :: h) fuel root = readHVal h fuel root := by
  intro fuel
  induction fuel with
  | zero =>
    intro root hr
    cases root <;> rfl
  | succ n ih =>
    intro root hr
    cases root with
    | imm v => rfl
    | href a =>
      have ha : ¬ (fresh = a) := by
        simp only [hvalMentions, beq_eq_false_iff_ne, ne_eq] at hr
        exact fun he => hr he.symm
      rw [readHVal, readHVal]
      rw [show heapGet ((fresh, nd) :: h) a = heapGet h a from by rw [heapGet, if_neg ha]]
      cases hg : heapGet h a with
      | none => rfl
      | some node =>
        have hnm : nodeMentions fresh node = false := heapGet_not_mentions h fresh a node hh hg
        cases node with
        | hdict kvs =>
          simp only [nodeMentions, List.any_eq_false] at hnm
          show Option.map Value.obj (readKVsWith (readHVal ((fresh, nd) :: h) n) kvs) =
            Option.map Value.obj (readKVsWith (readHVal h n) kvs)
          exact congrArg _ (readKVsWith_congr _ _ kvs
            (fun kv hm => ih kv.2 (by simpa using hnm kv hm)))
        | hlist xs =>
          simp only [nodeMentions, List.any_eq_false] at hnm
          show Option.map Value.arr (readListWith (readHVal ((fresh, nd) :: h) n) xs) =
            Option.map Value.arr (readListWith (readHVal h n) xs)
          exact congrArg _ (readListWith_congr _ _ xs
            (fun w hm => ih w (by simpa using hnm w hm)))

theorem projRow_alookup_aux (r : Record) :
    ∀ (fl : List String) (acc : Record) (key : String),
      alookup (fl.foldl (fun acc k => setKey acc k ((alookup r k).getD .null)) acc) key =
        if key ∈ fl then some ((alookup r key).getD .null) else alookup acc key
  | [], acc, key => by simp
  | k0 :: fl, acc, key => by
      simp only [List.foldl_cons]
      rw [projRow_alookup_aux r fl (setKey acc k0 ((alookup r k0).getD .null)) key]
      by_cases hmem : key ∈ fl
      · simp [hmem, List.mem_cons]
      · rw [if_neg hmem, alookup_setKey]
        by_cases hk : k0 = key
        · subst hk
          simp [List.mem_cons]
        · have hk2 : ¬ (key = k0) := fun h => hk h.symm
          rw [if_neg hk]
          simp [List.mem_cons, hmem, hk2]

/-- Concrete heap for the aliasing counterexample: the stored record at
address 0 has a nested dict at address 1. -/
def c6Heap : Heap :=
  [(0, .hdict [("name", .imm (.str "A")), ("inner", .href 1)]),
   (1, .hdict [("x", .imm (.int 1))])]

/-- **C6 counterexample.** Without a projection `select` returns
`row.copy()` for each row — a *shallow* dict copy.  Copying the stored
record (address 0) to the fresh address 2 shares the nested dict at
address 1, and mutating that nested dict through the returned record
changes the stored record's readback from `x = 1` to `x = 2`: the claimed
full independence under nested mutation fails. -/
theorem c6_counterexample :
    (selectCopyRows c6Heap [0] 2).2 = [2] ∧
    heapGet (selectCopyRows c6Heap [0] 2).1 2 =
      some (.hdict [("name", .imm (.str "A")), ("inner", .href 1)]) ∧
    readHVal c6Heap 3 (.href 0) =
      some (.obj [("name", .str "A"), ("inner", .obj [("x", .int 1)])]) ∧
    readHVal (heapSetField (selectCopyRows c6Heap [0] 2).1 1 "x" (.imm (.int 2))) 3
        (.href 0) =
      some (.obj [("name", .str "A"), ("inner", .obj [("x", .int 2)])]) := by
  exact ⟨rfl, rfl, rfl, rfl⟩

/-- **C6 amended.** Each no-projection result record is a fresh *top-level*
mapping sharing its field values with the stored record (shallow copy):
(1) the copy holds exactly the stored record's field values;
(2) mutating a top-level field of the fresh copy leaves the readback of
every pre-existing root unchanged — stored state cannot be mutated through
top-level assignment on the result (nested containers, however, are shared
— see the counterexample);
(3) with a projection list, each result record contains exactly the listed
keys, an absent field contributing null. -/
theorem c6_shallow_copy_projection (h : Heap) (src fresh : Nat)
    (kvs : List (String × HVal)) (k : String) (hv : HVal) (fuel : Nat) (root : HVal)
    (r : Record) (fl : List String) (key : String)
    (hsrc : heapGet h src = some (.hdict kvs))
    (hfresh : heapHasAddr h fresh = false)
    (hment : heapMentions h fresh = false)
    (hroot : hvalMentions fresh root = false) :
    heapGet (dictCopy h src fresh) fresh = some (.hdict kvs) ∧
    readHVal (heapSetField (dictCopy h src fresh) fresh k hv) fuel root =
      readHVal h fuel root ∧
    alookup (projRow fl r) key =
      (if key ∈ fl then some ((alookup r key).getD .null) else none) := by
  have hcopy : dictCopy h src fresh = (fresh, .hdict kvs) :: h := by
    rw [dictCopy, hsrc]
  have hget : heapGet (dictCopy h src fresh) fresh = some (.hdict kvs) := by
    rw [hcopy, heapGet, if_pos rfl]
  refine ⟨hget, ?_, ?_⟩
  · have hsf : heapSetField (dictCopy h src fresh) fresh k hv =
        (fresh, .hdict (setKey kvs k hv)) :: h := by
      rw [heapSetField, hget, hcopy]
      simp only [heapSet, List.map_cons, if_pos rfl]
      exact congrArg _ (heapSet_not_addr h fresh _ hfresh)
    rw [hsf]
    exact readHVal_cons h fresh _ hment fuel root hroot
  · rw [projRow, projRow_alookup_aux r fl [] key]
    cases hmem : decide (key ∈ fl) <;> simp_all [alookup]

theorem c6_shallow_copy_projection_witness :
    heapGet (dictCopy c6Heap 0 2) 2 =
      some (.hdict [("name", .imm (.str "A")), ("inner", .href 1)]) ∧
    readHVal (heapSetField (dictCopy c6Heap 0 2) 2 "name" (.imm (.str "B"))) 3 (.href 0) =
      readHVal c6Heap 3 (.href 0) ∧
    alookup (projRow ["name", "city"] aliceRow) "city" =
      (if "city" ∈ ["name", "city"] then some ((alookup aliceRow "city").getD .null)
       else none) :=
  c6_shallow_copy_projection c6Heap 0 2
    [("name", .imm (.str "A")), ("inner", .href 1)] "name" (.imm (.str "B")) 3 (.href 0)
    aliceRow ["name", "city"] "city" rfl rfl rfl rfl
